import Mathlib

/-!
Shallow embedding of the py-tsuro board/path/graph engine (Rust sources under
`src/py-tsuro/src/`).  Machine integers (`usize`) are modelled as `Nat`; Rust
panics (failed `assert!`, `unwrap`, `expect`, out-of-bounds indexing) are
modelled either by an `Option` result (`none` = the call panics or, for the
fuelled loops, runs out of fuel) or, where a claim's hypotheses keep the input
in range so the branch is unreachable, by an explicitly commented junk value.
Rust `loop`s that have no structural termination argument are modelled with an
explicit fuel parameter.
-/

namespace PyTsuro

/-- `type Coord = (usize, usize)` from `lib.rs`. -/
abbrev Coord := Nat × Nat

/-- `struct MarkerPosition { coords: Coord }` from `lib.rs`: a point of the
19×19 lattice obtained by splitting each tile into 3×3 subtiles. -/
structure MarkerPosition where
  coords : Coord
deriving DecidableEq, Repr

/-- `struct Tile { connections: [usize; 8] }` from `lib.rs`.  The array is
modelled as a function `Fin 8 → Nat`; the entries are arbitrary naturals
exactly as `usize` entries are (the repository itself builds tiles with
out-of-range entries such as 69 in its tests). -/
structure Tile where
  connections : Fin 8 → Nat

instance : DecidableEq Tile := fun a b =>
  decidable_of_iff (a.connections = b.connections) (by cases a; cases b; simp)

/-- Reading `connections[i]` at a computed (not literal) index `i : usize`.
Rust panics when `i ≥ 8`; that branch is modelled by the junk value 0 and is
unreachable under the in-range hypotheses of the claims below. -/
def Tile.conn (t : Tile) (i : Nat) : Nat :=
  if h : i < 8 then t.connections ⟨i, h⟩ else 0

/-- `struct Marker` from `lib.rs`. -/
structure Marker where
  position : MarkerPosition
  previous_tile : Option Coord
  has_moved : Bool
deriving DecidableEq, Repr

/-- The 6×6 grid `[[Option<Tile>; 6]; 6]` of a `Board`. -/
abbrev TileGrid := Fin 6 → Fin 6 → Option Tile

/-- `self.tiles[x][y]`.  Rust panics when `x ≥ 6` or `y ≥ 6`; modelled as
`none` (unreachable: every lookup in the translated code uses coordinates
produced by `adjacent_tiles`, which lie in `[0,6)²`). -/
def tileAt (tiles : TileGrid) (c : Coord) : Option Tile :=
  if h : c.1 < 6 ∧ c.2 < 6 then tiles ⟨c.1, h.1⟩ ⟨c.2, h.2⟩ else none

/-! ### Tile operations (`tile.rs`) -/

/-- `Tile::rotated` from `tile.rs` lines 8–23. -/
def Tile.rotated (t : Tile) (num : Nat) : Tile :=
  let n := num % 4
  ⟨fun i =>
    -- index of the point that will move to the ith
    let idx := if i.val < n * 2 then 8 + i.val - n * 2 else i.val - n * 2
    (t.conn idx + n * 2) % 8⟩

/-- The scan loop of `Tile::paths` (`tile.rs` lines 25–39): iterate over
`connections.into_iter().enumerate()`, emitting the pair `(a, connections[a])`
whenever neither endpoint is marked used.  `used` is modelled as a total
function on `Nat` (Rust indexes `used_vertices[b]` and panics when
`connections[a] ≥ 8`). -/
def pathsAux (conn : Nat → Nat) (used : Nat → Bool) : List Nat → List (Nat × Nat)
  | [] => []
  | a :: rest =>
    let b := conn a
    if used a || used b then pathsAux conn used rest
    else (a, b) :: pathsAux conn (fun j => if j = a ∨ j = b then true else used j) rest

/-- `Tile::paths`.  Rust writes the emitted pairs into a fixed `[(0,0); 4]`
array, so pairs beyond the emitted ones read as `(0, 0)`; emitting more than 4
pairs (possible only for tiles with fixed points, where Rust panics on the
out-of-bounds write) is modelled by truncation. -/
def Tile.paths (t : Tile) : List (Nat × Nat) :=
  (pathsAux t.conn (fun _ => false) (List.range 8) ++ List.replicate 4 (0, 0)).take 4

/-! ### Geometry (`board/marker.rs`, `board/graph.rs`) -/

/-- `MarkerPosition::from_entry_point_index` (`board/marker.rs` lines 15–36).
The `_ => panic!("Invalid entry point")` arms (entry points ≥ 8) are modelled
by the junk offset 0. -/
def MarkerPosition.from_entry_point_index (position : Coord) (entry_point : Nat) :
    MarkerPosition :=
  let lattice_x := position.1 * 3 +
    (if entry_point = 6 ∨ entry_point = 7 then 0
     else if entry_point = 0 ∨ entry_point = 5 then 1
     else if entry_point = 1 ∨ entry_point = 4 then 2
     else if entry_point = 2 ∨ entry_point = 3 then 3
     else 0)
  let lattice_y := position.2 * 3 +
    (if entry_point = 4 ∨ entry_point = 5 then 0
     else if entry_point = 3 ∨ entry_point = 6 then 1
     else if entry_point = 2 ∨ entry_point = 7 then 2
     else if entry_point = 0 ∨ entry_point = 1 then 3
     else 0)
  ⟨(lattice_x, lattice_y)⟩

/-- `MarkerPosition::entry_point_indices` (`board/marker.rs` lines 44–105):
adjacent tile coordinates with the corresponding entry point indices.  The
`panic!("Invalid lattice coordinates")` arms are modelled by the junk result
`[((0, 0), 0)]`; they are unreachable for valid lattice positions. -/
def MarkerPosition.entry_point_indices (p : MarkerPosition) : List (Coord × Nat) :=
  let x := p.coords.1
  let y := p.coords.2
  if x = 18 then
    if y % 3 = 1 then [((5, y / 3), 3)]
    else if y % 3 = 2 then [((5, y / 3), 2)]
    else [((0, 0), 0)]  -- Rust panics
  else if y = 18 then
    if x % 3 = 1 then [((x / 3, 5), 0)]
    else if x % 3 = 2 then [((x / 3, 5), 1)]
    else [((0, 0), 0)]  -- Rust panics
  else
    let tile_x := x / 3
    let tile_y := y / 3
    let local_x := x % 3
    let local_y := y % 3
    let entry_point :=
      if local_x = 2 ∧ local_y = 0 then some 4
      else if local_x = 1 ∧ local_y = 0 then some 5
      else if local_x = 0 ∧ local_y = 1 then some 6
      else if local_x = 0 ∧ local_y = 2 then some 7
      else none  -- Rust panics
    match entry_point with
    | none => [((0, 0), 0)]
    | some entry_point =>
      if x = 0 ∨ y = 0 then [((tile_x, tile_y), entry_point)]
      else
        -- `saturating_sub` coincides with truncated `Nat` subtraction
        let adjacent_tile : Coord :=
          if local_x = 0 then (tile_x - 1, tile_y) else (tile_x, tile_y - 1)
        -- the one exactly opposite
        let adjacent_entry_point :=
          if entry_point = 5 then 0
          else if entry_point = 4 then 1
          else if entry_point = 7 then 2
          else 3  -- entry_point = 6
        [((tile_x, tile_y), entry_point), (adjacent_tile, adjacent_entry_point)]

/-- `MarkerPosition::entry_point_index_on` (`board/marker.rs` lines 107–117).
When the list is a singleton and the first component does not match, Rust
indexes `positions[1]` out of bounds and panics; that branch is modelled as
`none`. -/
def MarkerPosition.entry_point_index_on (p : MarkerPosition) (pos : Coord) :
    Option Nat :=
  match p.entry_point_indices with
  | [] => none
  | (c0, e0) :: rest =>
    if pos = c0 then some e0
    else
      match rest with
      | [] => none  -- Rust panics (out-of-bounds `positions[1]`)
      | (c1, e1) :: _ => if pos = c1 then some e1 else none

/-- `MarkerPosition::adjacent_tiles` (`board/marker.rs` lines 119–124). -/
def MarkerPosition.adjacent_tiles (p : MarkerPosition) : List Coord :=
  p.entry_point_indices.map Prod.fst

/-- `MarkerPosition::is_edge` (`board/marker.rs` lines 129–131). -/
def MarkerPosition.is_edge (p : MarkerPosition) : Bool :=
  p.coords.1 = 0 ∨ p.coords.1 = 18 ∨ p.coords.2 = 0 ∨ p.coords.2 = 18

/-- `MarkerPosition::node_id` (`board/graph.rs` lines 10–21). -/
def MarkerPosition.node_id (p : MarkerPosition) : Nat :=
  let x := p.coords.1
  let y := p.coords.2
  if x % 3 = 0 then (x / 3) * 12 + (y - 1 - y / 3)
  else (6 * 12 + 12) + (y / 3) * 12 + (x - 1 - x / 3)

/-- The `INDEX_TO_POSITION` table (`board/marker/edge_index_to_position.rs`):
border index → lattice position, built from four sides exactly as the four
source loops do. -/
def INDEX_TO_POSITION : List Coord :=
  let side := (List.range 18).filter (fun v => ¬ v % 3 = 0)
  side.map (fun x => (x, 18)) ++
  side.map (fun y_inv => (18, 18 - y_inv)) ++
  side.map (fun x_inv => (18 - x_inv, 0)) ++
  side.map (fun y => (0, y))

/-- `MarkerPosition::from_index` (`board/marker.rs` lines 8–13).  Rust panics
for `idx ≥ 48`; modelled by the junk coordinate `(0, 0)`. -/
def MarkerPosition.from_index (idx : Nat) : MarkerPosition :=
  ⟨INDEX_TO_POSITION.getD idx (0, 0)⟩

/-! ### BoardGraph (`board/graph.rs`) -/

/-- `struct BoardGraph` from `lib.rs`: `vertices: [Option<MarkerPosition>; 168]`
and `adjacency_list: [Vec<(usize, bool)>; 168]`, both modelled as lists of
length 168 (indexing beyond the length would panic in Rust and is modelled by
`getD`/no-op `set`, unreachable because node ids of valid positions lie in
`[0,168)`). -/
structure BoardGraph where
  vertices : List (Option MarkerPosition)
  adjacency_list : List (List (Nat × Bool))
deriving DecidableEq, Repr

/-- `Vec::swap_remove(i)`: replace element `i` by the last element and pop. -/
def swapRemove {α : Type} (l : List α) (i : Nat) : List α :=
  match l.getLast? with
  | none => []
  | some last => (l.set i last).dropLast

/-- Read `adjacency_list[i]`. -/
def BoardGraph.adj (g : BoardGraph) (i : Nat) : List (Nat × Bool) :=
  g.adjacency_list.getD i []

/-- Write `adjacency_list[i]`. -/
def BoardGraph.setAdj (g : BoardGraph) (i : Nat) (l : List (Nat × Bool)) :
    BoardGraph :=
  { g with adjacency_list := g.adjacency_list.set i l }

/-- `BoardGraph::remove_edge` (`board/graph.rs` lines 65–74): drop the edge in
both directions; the `.expect(...)` panic when an endpoint has no such edge is
modelled by `none`. -/
def BoardGraph.remove_edge (g : BoardGraph) (node_ids : Nat × Nat) :
    Option BoardGraph :=
  [(node_ids.1, node_ids.2), (node_ids.2, node_ids.1)].foldlM
    (fun (g : BoardGraph) fromTo =>
      match (g.adj fromTo.1).findIdx? (fun e => e.1 = fromTo.2) with
      | none => none
      | some idx => some (g.setAdj fromTo.1 (swapRemove (g.adj fromTo.1) idx)))
    g

/-- The coordinate list iterated by `(0..19).cartesian_product(0..19)`. -/
def allLatticeCoords : List Coord :=
  (List.range 19).flatMap (fun x => (List.range 19).map (fun y => (x, y)))

/-- `BoardGraph::new` (`board/graph.rs` lines 26–63): all valid positions
become nodes, and every node receives an unbuilt edge to each other entry
point of each of its adjacent tiles (the inner `unwrap`s cannot fail for the
valid positions iterated here and are modelled by skipping). -/
def BoardGraph.new : BoardGraph :=
  let init : BoardGraph := ⟨List.replicate 168 none, List.replicate 168 []⟩
  let withVertices := allLatticeCoords.foldl
    (fun (g : BoardGraph) xy =>
      if xor (xy.1 % 3 = 0) (xy.2 % 3 = 0) then
        let markerpos := MarkerPosition.mk xy
        { g with vertices := g.vertices.set markerpos.node_id (some markerpos) }
      else g)
    init
  (List.range 168).foldl
    (fun (g : BoardGraph) id =>
      match withVertices.vertices.getD id none with
      | none => g  -- `position.unwrap()`: all 168 positions are nodes
      | some position =>
        position.adjacent_tiles.foldl
          (fun (g : BoardGraph) tile_coord =>
            match position.entry_point_index_on tile_coord with
            | none => g  -- `.unwrap()`: the node lies on each adjacent tile
            | some idx =>
              (List.range 8).foldl
                (fun (g : BoardGraph) entry_idx =>
                  if entry_idx = idx then g
                  else
                    let neighbour :=
                      MarkerPosition.from_entry_point_index tile_coord entry_idx
                    g.setAdj id (g.adj id ++ [(neighbour.node_id, false)]))
                g)
          g)
    withVertices

/-- The filtered pair list `(0..8).cartesian_product(0..8).filter(|(a,b)| a < b)`
from `BoardGraph::place_tile`. -/
def allConnectionPairs : List (Nat × Nat) :=
  ((List.range 8).flatMap (fun a => (List.range 8).map (fun b => (a, b)))).filter
    (fun ab => ab.1 < ab.2)

/-- One endpoint of a tile path in `BoardGraph::place_tile`: adopt the single
remaining neighbour as the chain's far end and swallow the node, or keep the
node itself.  Returns the updated graph and the effective path-end id. -/
def BoardGraph.pathEnd (g : BoardGraph) (tile_coords : Coord) (entry_idx : Nat) :
    Option (BoardGraph × Nat) :=
  let position := MarkerPosition.from_entry_point_index tile_coords entry_idx
  let node_id := position.node_id
  let path_end_id :=
    if (g.adj node_id).length = 1 then ((g.adj node_id).getD 0 (0, false)).1
    else node_id
  if path_end_id ≠ node_id then
    let g := { g with vertices := g.vertices.set node_id none }
    match g.remove_edge (path_end_id, node_id) with
    | none => none
    | some g => some (g, path_end_id)
  else some (g, path_end_id)

/-- `BoardGraph::place_tile` (`board/graph.rs` lines 76–120). -/
def BoardGraph.place_tile (g : BoardGraph) (tile : Tile) (tile_coords : Coord) :
    Option BoardGraph :=
  -- remove all connections going across this tile
  match allConnectionPairs.foldlM
      (fun (g : BoardGraph) ab =>
        let node_a := (MarkerPosition.from_entry_point_index tile_coords ab.1).node_id
        let node_b := (MarkerPosition.from_entry_point_index tile_coords ab.2).node_id
        g.remove_edge (node_a, node_b))
      g with
  | none => none
  | some g =>
    -- create new path connections based on the tile's pattern
    tile.paths.foldlM
      (fun (g : BoardGraph) entry_indices =>
        match g.pathEnd tile_coords entry_indices.1 with
        | none => none
        | some (g, end0) =>
          match g.pathEnd tile_coords entry_indices.2 with
          | none => none
          | some (g, end1) =>
            let g := g.setAdj end0 (g.adj end0 ++ [(end1, true)])
            let g := g.setAdj end1 (g.adj end1 ++ [(end0, true)])
            some g)
      g

/-! ### Board (`board.rs`) -/

/-- `struct Board` from `lib.rs`. -/
structure Board where
  markers : List (Option Marker)
  tiles : TileGrid
  graph : BoardGraph
deriving DecidableEq

/-- `Board::new` (`board.rs` lines 14–20). -/
def Board.new : Board :=
  { markers := [], tiles := fun _ _ => none, graph := BoardGraph.new }

/-- `Board::place_marker` (`board.rs` lines 24–35): returns the updated board
together with the Rust return value. -/
def Board.place_marker (b : Board) (position_index : Nat) : Board × Bool :=
  let marker : Option Marker :=
    some { position := MarkerPosition.from_index position_index,
           previous_tile := none, has_moved := false }
  if b.markers.contains marker then (b, false)
  else ({ b with markers := b.markers ++ [marker] }, true)

/-- `Board::next_tile_of_player` (`board.rs` lines 166–188).  The `expect` on
an eliminated/missing player and the two `assert!`s are modelled by `none`. -/
def Board.next_tile_of_player (b : Board) (player : Nat) : Option Coord :=
  match b.markers.getD player none with
  | none => none  -- `expect`: eliminated or no marker placed (or index panic)
  | some marker =>
    let adjacents := marker.position.adjacent_tiles
    match marker.previous_tile with
    | some previous =>
      if adjacents.length = 2 then
        some (if adjacents.getD 0 (0, 0) = previous then adjacents.getD 1 (0, 0)
              else adjacents.getD 0 (0, 0))
      else none  -- assert!(adjacents.len() == 2)
    | none =>
      if marker.position.is_edge then some (adjacents.getD 0 (0, 0))
      else none  -- assert!(marker.position.is_edge())

/-- The `marker_positions.iter().position(...)` lookup of
`Board::find_collisions`: the first player index whose token sits on the
`entry`-th edge position of the cell at `position` (`positions[entry]`
panics in Rust for `entry ≥ 8`, modelled by a junk default, unreachable
since path endpoints of in-range tiles are below 8). -/
def Board.playerAt (b : Board) (position : Coord) (entry : Nat) : Option Nat :=
  let positions := (List.range 8).map
    (fun idx => MarkerPosition.from_entry_point_index position idx)
  let marker_positions := b.markers.map (fun m => m.map (fun mk => mk.position))
  marker_positions.findIdx? (fun pos => pos = some (positions.getD entry ⟨(0, 0)⟩))

/-- `Board::find_collisions` (`board.rs` lines 47–81), before sorting and
deduplication: for each path of the tile, if both connected entry positions
hold a token, report both players. -/
def Board.collisions_raw (b : Board) (tile : Tile) (position : Coord) : List Nat :=
  tile.paths.foldl
    (fun acc entry_idx =>
      match b.playerAt position entry_idx.1, b.playerAt position entry_idx.2 with
      | some pa, some pb => acc ++ [pa, pb]
      | _, _ => acc)
    []

/-- `Vec::dedup`: remove consecutive repeated elements.  (When `a = b` Rust
keeps `a` and continues comparing it against the rest; recursing on `b :: rest`
is the same because the two heads are equal, and keeps the recursion
structural.) -/
def rustDedup : List Nat → List Nat
  | [] => []
  | [a] => [a]
  | a :: b :: rest =>
    if a = b then rustDedup (b :: rest) else a :: rustDedup (b :: rest)

/-- `Board::find_collisions`: the raw collision list, sorted
(`sort_unstable`, modelled by insertion sort — on `Nat` every correct sort
returns the same list) and deduplicated. -/
def Board.find_collisions (b : Board) (tile : Tile) (position : Coord) : List Nat :=
  rustDedup (List.insertionSort (fun x y => x ≤ y) (b.collisions_raw tile position))

/-- The body of the `loop` in `Board::find_path_endpoint` (`board.rs` lines
231–255): either break with the final position (`Sum.inl`) or continue with
the new `(current_position, last_tile_coord)` state (`Sum.inr`).  The
`.unwrap()` on `entry_point_index_on` cannot fail (the next tile is adjacent
to the current position) and is modelled by the junk entry index 0. -/
def findPathStep (tiles : TileGrid) (s : MarkerPosition × Coord) :
    MarkerPosition ⊕ (MarkerPosition × Coord) :=
  let adjacents := s.1.adjacent_tiles
  let next_tile_coord :=
    if adjacents.length = 2 ∧ s.2 = adjacents.getD 0 (0, 0) then
      adjacents.getD 1 (0, 0)
    else adjacents.getD 0 (0, 0)
  if next_tile_coord = s.2 then Sum.inl s.1
  else
    match tileAt tiles next_tile_coord with
    | none => Sum.inl s.1
    | some next_tile =>
      let entry_index := (s.1.entry_point_index_on next_tile_coord).getD 0
      let exit_index := next_tile.conn entry_index
      Sum.inr (MarkerPosition.from_entry_point_index next_tile_coord exit_index,
        next_tile_coord)

/-- The `loop` of `Board::find_path_endpoint` with explicit fuel (`none` means
the fuel ran out: the Rust loop has no termination guarantee). -/
def findPathLoop (tiles : TileGrid) : Nat → MarkerPosition × Coord →
    Option MarkerPosition
  | 0, _ => none
  | fuel + 1, s =>
    match findPathStep tiles s with
    | Sum.inl result => some result
    | Sum.inr s' => findPathLoop tiles fuel s'

/-- `Board::find_path_endpoint` (`board.rs` lines 223–257) with fuel. -/
def Board.find_path_endpoint (b : Board) (location : Coord) (exit : Nat)
    (fuel : Nat) : Option MarkerPosition :=
  findPathLoop b.tiles fuel
    (MarkerPosition.from_entry_point_index location exit, location)

/-- The `nonterminal_positions` list of `Board::move_is_suicide` (`board.rs`
lines 129–140). -/
def Board.nonterminal_positions (b : Board) (tile_pos : Coord) :
    List MarkerPosition :=
  ((List.range 8).map (fun e => MarkerPosition.from_entry_point_index tile_pos e)).filter
    (fun position =>
      let adjacents := position.adjacent_tiles
      adjacents.length = 2 &&
        adjacents.all (fun xy => (tileAt b.tiles xy).isSome || xy = tile_pos))

/-- The `loop` of `Board::move_is_suicide` (`board.rs` lines 145–153) with
fuel: cross the candidate tile, trace the real board beyond it, and repeat
while the reached position is non-terminal.  The `.unwrap()` on
`entry_point_index_on` is modelled by the junk entry index 0 (unreachable:
every looped position lies on the candidate tile). -/
def Board.suicideLoop (b : Board) (tile : Tile) (tile_pos : Coord)
    (inner_fuel : Nat) : Nat → MarkerPosition → Option MarkerPosition
  | 0, _ => none
  | fuel + 1, current_position =>
    let entry_point := (current_position.entry_point_index_on tile_pos).getD 0
    let exit_point := tile.conn entry_point
    match b.find_path_endpoint tile_pos exit_point inner_fuel with
    | none => none
    | some next =>
      if next ∈ b.nonterminal_positions tile_pos then
        b.suicideLoop tile tile_pos inner_fuel fuel next
      else some next

/-- `Board::move_is_suicide` (`board.rs` lines 121–159) with fuel; `none`
models a panic (`expect` on the marker, asserts inside
`next_tile_of_player`) or fuel exhaustion in either loop. -/
def Board.move_is_suicide (b : Board) (tile : Tile) (active_player : Nat)
    (fuel : Nat) : Option Bool :=
  match b.markers.getD active_player none with
  | none => none  -- expect("player should not be eliminated")
  | some marker =>
    match b.next_tile_of_player active_player with
    | none => none
    | some tile_pos =>
      match b.suicideLoop tile tile_pos fuel fuel marker.position with
      | none => none
      | some endPos =>
        let colliders := b.find_collisions tile tile_pos
        some (endPos.is_edge || colliders.contains active_player)

/-- `Board::find_player_path_end` (`board.rs` lines 193–219) with fuel. -/
def Board.find_player_path_end (b : Board) (player : Nat) (fuel : Nat) :
    Option (MarkerPosition × Bool) :=
  match b.markers.getD player none with
  | none => none  -- expect: eliminated player
  | some marker =>
    match marker.previous_tile with
    | none =>
      -- special case where the marker is still on the edge of the board
      if marker.position.is_edge then
        let xy := marker.position.adjacent_tiles.getD 0 (0, 0)
        match tileAt b.tiles xy with
        | none => some (marker.position, false)
        | some tile =>
          match marker.position.entry_point_index_on xy with
          | none => none  -- .unwrap()
          | some from_idx =>
            let to_idx := tile.conn from_idx
            match b.find_path_endpoint xy to_idx fuel with
            | none => none
            | some endPos => some (endPos, endPos ≠ marker.position)
      else none  -- assert!(marker.position.is_edge())
    | some coords =>
      match marker.position.entry_point_index_on coords with
      | none => none  -- .unwrap()
      | some exit_idx =>
        match b.find_path_endpoint coords exit_idx fuel with
        | none => none
        | some endPos => some (endPos, endPos ≠ marker.position)

/-- One iteration of the `for` loop of `Board::move_markers` (`board.rs`
lines 87–117) for player index `player` whose cloned marker entry is
`cloneEntry`; threads the mutable state `(markers, eliminated)`. -/
def Board.moveMarkersStep (b : Board) (fuel : Nat)
    (state : List (Option Marker) × List Nat) (player : Nat)
    (cloneEntry : Option Marker) : Option (List (Option Marker) × List Nat) :=
  match cloneEntry with
  | none => some state  -- eliminated player
  | some _ =>
    match Board.find_player_path_end
        { b with markers := state.1 } player fuel with
    | none => none
    | some (new_pos, is_different) =>
      if ¬ is_different then some state  -- player does not move
      else if new_pos.is_edge then some (state.1, state.2 ++ [player])
      else
        match new_pos.adjacent_tiles with
        | [a, bb] =>
          let prev_tile_pos := if tileAt b.tiles a = none then bb else a
          if (tileAt b.tiles prev_tile_pos).isSome then
            some (state.1.set player
              (some { previous_tile := some prev_tile_pos, position := new_pos,
                      has_moved := true }), state.2)
          else none  -- assert!(self.tiles[..].is_some())
        | _ => none  -- collect_tuple().unwrap()

/-- The iteration of `Board::move_markers` over `self.markers.clone()`,
starting at player index `player`. -/
def Board.moveMarkersAux (b : Board) (fuel : Nat) :
    List (Option Marker) → Nat → List (Option Marker) × List Nat →
      Option (List (Option Marker) × List Nat)
  | [], _, state => some state
  | entry :: rest, player, state =>
    match b.moveMarkersStep fuel state player entry with
    | none => none
    | some state' => b.moveMarkersAux fuel rest (player + 1) state'

/-- `Board::move_markers` (`board.rs` lines 85–119) with fuel: returns the
updated board and the list of players to be eliminated. -/
def Board.move_markers (b : Board) (fuel : Nat) : Option (Board × List Nat) :=
  match b.moveMarkersAux fuel b.markers 0 (b.markers, []) with
  | none => none
  | some (markers', eliminated) =>
    some ({ b with markers := markers' }, eliminated)

/-! ### Specification-side helper definitions (proof devices, not translations) -/

/-- The valid lattice positions: the node set iterated by `BoardGraph::new`
(`board/graph.rs` lines 33–39): coordinates in `[0,19)²` with exactly one of
the two coordinates divisible by 3. -/
abbrev ValidNode (p : MarkerPosition) : Prop :=
  p.coords.1 < 19 ∧ p.coords.2 < 19 ∧
    ((p.coords.1 % 3 = 0 ∧ ¬ p.coords.2 % 3 = 0) ∨
     (¬ p.coords.1 % 3 = 0 ∧ p.coords.2 % 3 = 0))

/-- Explicit inverse of `node_id`, used to witness surjectivity. -/
def nodeIdInv (n : Nat) : MarkerPosition :=
  if n < 84 then ⟨(3 * (n / 12), 3 * (n % 12 / 2) + n % 12 % 2 + 1)⟩
  else ⟨(3 * ((n - 84) % 12 / 2) + (n - 84) % 12 % 2 + 1, 3 * ((n - 84) / 12))⟩

/-- Closed form for the scan loop of `Tile::paths` on fixed-point-free
involutions: the pairs `(a, conn a)` with `a < conn a`, in scan order. -/
def pathsSpec (conn : Nat → Nat) (l : List Nat) : List (Nat × Nat) :=
  l.filterMap (fun a => if a < conn a then some (a, conn a) else none)

/-- A tile with out-of-range connection entries (the repository's own tests
build tiles with entry 69), used to refute `rotated(0) == tile` as stated
for arbitrary connection arrays. -/
def junkTile : Tile := ⟨fun _ => 69⟩

/-- The canonical first catalog tile, code `"12-34-56-78"` (`tile.rs`). -/
def tile0 : Tile := ⟨![1, 0, 3, 2, 5, 4, 7, 6]⟩

/-- The third catalog tile, code `"15-26-37-48"` (`tile.rs`). -/
def tile15 : Tile := ⟨![4, 5, 6, 7, 0, 1, 2, 3]⟩

/-- The empty tile grid. -/
def emptyGrid : TileGrid := fun _ _ => none

/-- A placeholder graph value for example boards (the claims below quantify
over arbitrary boards, and the operations they exercise never read the
graph). -/
def graph0 : BoardGraph := ⟨[], []⟩

/-- A board whose only marker is an active marker that sits on the border
position of border index 0 but has `previous_tile` set and `has_moved = true`:
its position is claimed by an active marker, yet it is not equal to the
freshly built marker that `place_marker 0` constructs. -/
def movedMarkerBoard : Board :=
  { markers := [some { position := MarkerPosition.from_index 0,
                       previous_tile := some (0, 0), has_moved := true }],
    tiles := emptyGrid, graph := graph0 }

/-- A two-player board on an empty grid: player 0 still on its starting border
position `(11,0)` (about to enter tile `(3,0)`), player 1 at the interior
position `(10,3)` on the far side of tile `(3,0)`. -/
def collisionBoard : Board :=
  { markers :=
      [some { position := ⟨(11, 0)⟩, previous_tile := none, has_moved := false },
       some { position := ⟨(10, 3)⟩, previous_tile := some (3, 1), has_moved := true }],
    tiles := emptyGrid, graph := graph0 }

/-- A two-player board with both players on starting border positions `(11,0)`
and `(10,0)`, the two south entry points of tile `(3,0)`. -/
def twoBorderBoard : Board :=
  { markers :=
      [some { position := ⟨(11, 0)⟩, previous_tile := none, has_moved := false },
       some { position := ⟨(10, 0)⟩, previous_tile := none, has_moved := false }],
    tiles := emptyGrid, graph := graph0 }

/-- A one-player board whose marker at `(11,0)` is about to be carried off the
board edge by the tile placed at `(3,0)`. -/
def eliminationBoard : Board :=
  { markers :=
      [some { position := ⟨(11, 0)⟩, previous_tile := none, has_moved := false }],
    tiles := fun x y => if (x.val, y.val) = (3, 0) then some tile0 else none,
    graph := graph0 }

/-- Two copies of the first catalog tile stacked at `(0,0)` and `(0,1)`: tile
`"12-34-56-78"` joins the two north entries of `(0,0)` to the two south
entries of `(0,1)`, forming a closed two-tile loop. -/
def loopGrid : TileGrid :=
  fun x y => if x.val = 0 ∧ (y.val = 0 ∨ y.val = 1) then some tile0 else none

/-- Termination of the `find_path_endpoint` loop: some amount of fuel makes
the fuelled model return. -/
def pathTerminates (tiles : TileGrid) (location : Coord) (exit : Nat) : Prop :=
  ∃ fuel, (findPathLoop tiles fuel
    (MarkerPosition.from_entry_point_index location exit, location)).isSome

/-- The pure continue-iterate of `findPathStep`: `none` as soon as the loop
would break (or has broken). -/
def pathIter (tiles : TileGrid) : Nat → MarkerPosition × Coord →
    Option (MarkerPosition × Coord)
  | 0, s => some s
  | n + 1, s =>
    match findPathStep tiles s with
    | Sum.inl _ => none
    | Sum.inr s' => pathIter tiles n s'

/-- Bounds satisfied by every state the path-following loop can reach. -/
def StateOK (s : MarkerPosition × Coord) : Prop :=
  s.1.coords.1 < 19 ∧ s.1.coords.2 < 19 ∧ s.2.1 < 6 ∧ s.2.2 < 6

/-- The loop states as raw tuples, for counting. -/
def encodeState (s : MarkerPosition × Coord) : (Nat × Nat) × (Nat × Nat) :=
  (s.1.coords, s.2)

/-- All encoded states allowed by `StateOK`: `19·19·6·6 = 12996` of them. -/
def stateFinset : Finset ((Nat × Nat) × (Nat × Nat)) :=
  (Finset.range 19 ×ˢ Finset.range 19) ×ˢ (Finset.range 6 ×ˢ Finset.range 6)

/-- The contribution of one tile path to the raw collision list (the body of
the `for` loop of `find_collisions`). -/
def collisionsOf (b : Board) (position : Coord) (cd : Nat × Nat) : List Nat :=
  match b.playerAt position cd.1, b.playerAt position cd.2 with
  | some pa, some pb => [pa, pb]
  | _, _ => []

/-! ## Helper lemmas -/

theorem Tile.ext' {t1 t2 : Tile} (h : t1.connections = t2.connections) : t1 = t2 := by
  cases t1; cases t2; cases h; rfl

/-- Closed form for one rotated connection entry. -/
theorem Tile.rotated_connections (t : Tile) (num : Nat) (i : Fin 8) :
    (t.rotated num).connections i =
      (t.conn ((i.val + 8 - num % 4 * 2) % 8) + num % 4 * 2) % 8 := by
  have hi := i.isLt
  have h4 : num % 4 < 4 := Nat.mod_lt _ (by omega)
  simp only [Tile.rotated]
  rcases Nat.lt_or_ge i.val (num % 4 * 2) with h | h
  · rw [if_pos h, show 8 + i.val - num % 4 * 2 = (i.val + 8 - num % 4 * 2) % 8 from by omega]
  · rw [if_neg (Nat.not_lt.mpr h),
      show i.val - num % 4 * 2 = (i.val + 8 - num % 4 * 2) % 8 from by omega]

theorem Tile.rotated_conn (t : Tile) (num m : Nat) (hm : m < 8) :
    (t.rotated num).conn m = (t.conn ((m + 8 - num % 4 * 2) % 8) + num % 4 * 2) % 8 := by
  have h1 : (t.rotated num).conn m = (t.rotated num).connections ⟨m, hm⟩ := by
    simp [Tile.conn, hm]
  rw [h1, Tile.rotated_connections]

/-- Composing two rotations adds the rotation counts modulo 4 (this half of
claim C6 holds for arbitrary connection arrays). -/
theorem Tile.rotated_rotated (t : Tile) (a b : Nat) :
    (t.rotated a).rotated b = t.rotated ((a + b) % 4) := by
  apply Tile.ext'
  funext i
  have hi := i.isLt
  rw [Tile.rotated_connections, Tile.rotated_connections,
    Tile.rotated_conn _ _ _ (Nat.mod_lt _ (by omega))]
  rw [show ((i.val + 8 - b % 4 * 2) % 8 + 8 - a % 4 * 2) % 8
      = (i.val + 8 - (a + b) % 4 % 4 * 2) % 8 from by omega]
  omega

theorem Tile.rotated_zero (t : Tile) (h : ∀ i, t.connections i < 8) :
    t.rotated 0 = t := by
  apply Tile.ext'
  funext i
  have hi := i.isLt
  rw [Tile.rotated_connections]
  rw [show (i.val + 8 - 0 % 4 * 2) % 8 = i.val from by omega]
  have hc : t.conn i.val = t.connections i := by simp [Tile.conn, hi]
  rw [hc]
  simp [Nat.mod_eq_of_lt (h i)]

/-- The involution/no-fixed-point hypotheses transported to `Tile.conn`. -/
theorem Tile.conn_facts (t : Tile)
    (h8 : ∀ i : Fin 8, t.connections i < 8)
    (hinv : ∀ i : Fin 8, t.conn (t.connections i) = i.val)
    (hnf : ∀ i : Fin 8, t.connections i ≠ i.val) :
    ∀ j, j < 8 → t.conn j < 8 ∧ t.conn (t.conn j) = j ∧ t.conn j ≠ j := by
  intro j hj
  have hc : t.conn j = t.connections ⟨j, hj⟩ := dif_pos hj
  exact ⟨by rw [hc]; exact h8 ⟨j, hj⟩, by rw [hc]; exact hinv ⟨j, hj⟩,
    by rw [hc]; exact hnf ⟨j, hj⟩⟩

/-- The scan loop of `Tile::paths` computes `pathsSpec` on fixed-point-free
involutions.  The `used` argument is generalised to any marking that records
exactly the pairs whose smaller endpoint lies below the scan position `k`. -/
theorem pathsAux_eq_filterMap (conn : Nat → Nat)
    (hconn : ∀ j, j < 8 → conn j < 8 ∧ conn (conn j) = j ∧ conn j ≠ j) :
    ∀ (n k : Nat), k + n = 8 →
      ∀ used : Nat → Bool, (∀ j, j < 8 → (used j = true ↔ min j (conn j) < k)) →
        pathsAux conn used (List.range' k n) = pathsSpec conn (List.range' k n) := by
  intro n
  induction n with
  | zero => intro k _ used _; rfl
  | succ n ih =>
    intro k hk used hused
    have hk8 : k < 8 := by omega
    obtain ⟨hlt, hinv, hne⟩ := hconn k hk8
    have hrange : List.range' k (n + 1) = k :: List.range' (k + 1) n := rfl
    rw [hrange]
    have husedk : used k = true ↔ conn k < k := by
      rw [hused k hk8]; omega
    have husedck : used (conn k) = true ↔ conn k < k := by
      rw [hused (conn k) hlt, hinv]; omega
    have hmin_ne : ∀ j, j < 8 → j ≠ k → conn j ≠ k → min j (conn j) < k + 1 →
        min j (conn j) < k := by
      intro j hj hjk hcjk hmin
      rcases Nat.lt_or_ge (min j (conn j)) k with h | h
      · exact h
      · omega
    by_cases hck : conn k < k
    · have h1 : used k = true := husedk.mpr hck
      have hstep : pathsAux conn used (k :: List.range' (k + 1) n)
          = pathsAux conn used (List.range' (k + 1) n) := by
        simp [pathsAux, h1]
      have hspec : pathsSpec conn (k :: List.range' (k + 1) n)
          = pathsSpec conn (List.range' (k + 1) n) := by
        simp [pathsSpec, List.filterMap_cons, Nat.not_lt.mpr (Nat.le_of_lt hck)]
      rw [hstep, hspec]
      apply ih (k + 1) (by omega) used
      intro j hj
      rw [hused j hj]
      constructor
      · omega
      · intro hmin
        by_cases hjk : j = k
        · subst hjk; omega
        · by_cases hcjk : conn j = k
          · have hcc : conn (conn j) = j := (hconn j hj).2.1
            rw [hcjk] at hcc
            omega
          · exact hmin_ne j hj hjk hcjk hmin
    · have hgt : k < conn k := by omega
      have h1 : used k = false := by
        cases h : used k with
        | false => rfl
        | true => exact absurd (husedk.mp h) hck
      have h2 : used (conn k) = false := by
        cases h : used (conn k) with
        | false => rfl
        | true => exact absurd (husedck.mp h) hck
      have hstep : pathsAux conn used (k :: List.range' (k + 1) n)
          = (k, conn k) :: pathsAux conn
              (fun j => if j = k ∨ j = conn k then true else used j)
              (List.range' (k + 1) n) := by
        simp [pathsAux, h1, h2]
      have hspec : pathsSpec conn (k :: List.range' (k + 1) n)
          = (k, conn k) :: pathsSpec conn (List.range' (k + 1) n) := by
        simp [pathsSpec, List.filterMap_cons, hgt]
      rw [hstep, hspec]
      congr 1
      apply ih (k + 1) (by omega)
      intro j hj
      by_cases hjk : j = k
      · subst hjk
        rw [if_pos (Or.inl rfl)]
        refine ⟨fun _ => ?_, fun _ => rfl⟩
        omega
      · by_cases hjck : j = conn k
        · subst hjck
          rw [if_pos (Or.inr rfl), hinv]
          refine ⟨fun _ => ?_, fun _ => rfl⟩
          omega
        · rw [if_neg (not_or.mpr ⟨hjk, hjck⟩), hused j hj]
          constructor
          · omega
          · intro hmin
            have hcjk : conn j ≠ k := by
              intro hcj
              have hcc : conn (conn j) = j := (hconn j hj).2.1
              rw [hcj] at hcc
              exact hjck hcc.symm
            exact hmin_ne j hj hjk hcjk hmin

theorem countP_eq_single : ∀ (n e : Nat), e < n →
    List.countP (fun a => decide (a = e)) (List.range n) = 1 := by
  intro n
  induction n with
  | zero => intro e he; omega
  | succ n ih =>
    intro e he
    rw [List.range_succ, List.countP_append]
    by_cases hen : e = n
    · subst hen
      have hz : List.countP (fun a => decide (a = e)) (List.range e) = 0 := by
        rw [List.countP_eq_zero]
        intro a ha
        have := List.mem_range.mp ha
        simp
        omega
      rw [hz]
      simp [List.countP_cons]
    · have h1 : List.countP (fun a => decide (a = e)) [n] = 0 := by
        simp [List.countP_cons, Ne.symm hen]
      rw [h1, ih e (by omega)]

/-- A fixed-point-free involution on `[0,8)` has exactly 4 increasing pairs. -/
theorem countP_lt_conn (conn : Nat → Nat)
    (hconn : ∀ j, j < 8 → conn j < 8 ∧ conn (conn j) = j ∧ conn j ≠ j) :
    List.countP (fun a => decide (a < conn a)) (List.range 8) = 4 := by
  have hbridge : List.countP (fun a => decide (a < conn a)) (List.range 8)
      = ((Finset.range 8).filter (fun a => a < conn a)).card := by
    rw [List.countP_eq_length_filter]
    rfl
  rw [hbridge]
  have hcards : ((Finset.range 8).filter (fun a => a < conn a)).card
      = ((Finset.range 8).filter (fun a => conn a < a)).card := by
    apply Finset.card_bij' (fun a _ => conn a) (fun a _ => conn a)
    · intro a ha
      simp only [Finset.mem_filter, Finset.mem_range] at ha ⊢
      obtain ⟨ha8, halt⟩ := ha
      obtain ⟨hc8, hcc, _⟩ := hconn a ha8
      exact ⟨hc8, by rw [hcc]; exact halt⟩
    · intro a ha
      simp only [Finset.mem_filter, Finset.mem_range] at ha ⊢
      obtain ⟨ha8, halt⟩ := ha
      obtain ⟨hc8, hcc, _⟩ := hconn a ha8
      exact ⟨hc8, by rw [hcc]; exact halt⟩
    · intro a ha
      simp only [Finset.mem_filter, Finset.mem_range] at ha
      exact (hconn a ha.1).2.1
    · intro a ha
      simp only [Finset.mem_filter, Finset.mem_range] at ha
      exact (hconn a ha.1).2.1
  have hsplit : ((Finset.range 8).filter (fun a => a < conn a)).card
      + ((Finset.range 8).filter (fun a => ¬ a < conn a)).card = 8 := by
    rw [Finset.filter_card_add_filter_neg_card_eq_card]
    simp
  have hcongr : (Finset.range 8).filter (fun a => ¬ a < conn a)
      = (Finset.range 8).filter (fun a => conn a < a) := by
    apply Finset.filter_congr
    intro a ha
    have ha8 := Finset.mem_range.mp ha
    obtain ⟨_, _, hne⟩ := hconn a ha8
    constructor
    · intro h; omega
    · intro h; omega
  rw [hcongr] at hsplit
  omega

/-! ### Path-tracing loop lemmas (claim C2) -/

theorem from_entry_bounds (c : Coord) (hx : c.1 < 6) (hy : c.2 < 6) (e : Nat) :
    (MarkerPosition.from_entry_point_index c e).coords.1 < 19 ∧
    (MarkerPosition.from_entry_point_index c e).coords.2 < 19 := by
  obtain ⟨x, y⟩ := c
  simp only [MarkerPosition.from_entry_point_index] at *
  split_ifs <;> omega

theorem adjacent_tiles_bounds (p : MarkerPosition)
    (hx : p.coords.1 < 19) (hy : p.coords.2 < 19) :
    ∀ c ∈ p.adjacent_tiles, c.1 < 6 ∧ c.2 < 6 := by
  obtain ⟨⟨x, y⟩⟩ := p
  have hx' : x < 19 := hx
  have hy' : y < 19 := hy
  clear hx hy
  intro c hc
  simp only [MarkerPosition.adjacent_tiles, MarkerPosition.entry_point_indices] at hc
  split_ifs at hc
  all_goals (try split at hc)
  all_goals simp only [List.map_cons, List.map_nil, List.mem_cons,
    List.not_mem_nil, or_false] at hc
  all_goals (first
    | (rcases hc with hc | hc <;> subst hc)
    | subst hc)
  all_goals dsimp only
  all_goals omega

theorem pathIter_add (tiles : TileGrid) (m n : Nat) :
    ∀ s, pathIter tiles (m + n) s = (pathIter tiles m s).bind (pathIter tiles n) := by
  induction m with
  | zero => intro s; simp [pathIter, Nat.zero_add, Option.bind]
  | succ m ih =>
    intro s
    rw [Nat.succ_add]
    cases hst : findPathStep tiles s with
    | inl v => simp [pathIter, hst]
    | inr s' => simp [pathIter, hst, ih s']

theorem pathIter_isSome_of_le (tiles : TileGrid) {m n : Nat} {s : MarkerPosition × Coord}
    (hmn : m ≤ n) (h : (pathIter tiles n s).isSome = true) :
    (pathIter tiles m s).isSome = true := by
  have h2 : n = m + (n - m) := by omega
  rw [h2, pathIter_add] at h
  cases hm : pathIter tiles m s with
  | none => rw [hm] at h; simp [Option.bind] at h
  | some s' => rfl

theorem findPathLoop_none_iff (tiles : TileGrid) :
    ∀ (f : Nat) (s : MarkerPosition × Coord),
      findPathLoop tiles f s = none ↔ (pathIter tiles f s).isSome = true := by
  intro f
  induction f with
  | zero => intro s; simp [findPathLoop, pathIter]
  | succ f ih =>
    intro s
    cases hst : findPathStep tiles s with
    | inl v => simp [findPathLoop, pathIter, hst]
    | inr s' => simp [findPathLoop, pathIter, hst, ih s']

/-- Once the loop has returned, any larger amount of fuel returns the same
endpoint. -/
theorem findPathLoop_mono (tiles : TileGrid) :
    ∀ (f1 : Nat) (s : MarkerPosition × Coord) (f2 : Nat) (v : MarkerPosition),
      f1 ≤ f2 → findPathLoop tiles f1 s = some v → findPathLoop tiles f2 s = some v := by
  intro f1
  induction f1 with
  | zero => intro s f2 v _ h; simp [findPathLoop] at h
  | succ f1 ih =>
    intro s f2 v hle h
    cases f2 with
    | zero => omega
    | succ f2 =>
      cases hst : findPathStep tiles s with
      | inl w =>
        simp [findPathLoop, hst] at h ⊢
        exact h
      | inr s' =>
        simp only [findPathLoop, hst] at h ⊢
        exact ih s' f2 v (by omega) h

theorem getD_adjacent_bounds (p : MarkerPosition)
    (hx : p.coords.1 < 19) (hy : p.coords.2 < 19) (i : Nat) :
    (p.adjacent_tiles.getD i (0, 0)).1 < 6 ∧ (p.adjacent_tiles.getD i (0, 0)).2 < 6 := by
  rw [List.getD_eq_getElem?_getD]
  cases hg : p.adjacent_tiles[i]? with
  | none => simp
  | some c =>
    have hmem : c ∈ p.adjacent_tiles := by
      obtain ⟨hlen, hc⟩ := List.getElem?_eq_some_iff.mp hg
      exact hc ▸ List.getElem_mem hlen
    simpa using adjacent_tiles_bounds p hx hy c hmem

/-- One step of the path-following loop keeps the state inside the bounded
state space. -/
theorem findPathStep_ok (tiles : TileGrid) (s s' : MarkerPosition × Coord)
    (hs : StateOK s) (h : findPathStep tiles s = Sum.inr s') : StateOK s' := by
  obtain ⟨hx, hy, hl1, hl2⟩ := hs
  have hnext : ∀ i, (s.1.adjacent_tiles.getD i (0, 0)).1 < 6 ∧
      (s.1.adjacent_tiles.getD i (0, 0)).2 < 6 :=
    getD_adjacent_bounds s.1 hx hy
  simp only [findPathStep] at h
  repeat' split at h
  all_goals try exact Sum.noConfusion h
  all_goals
    have hpair := Sum.inr.inj h
  all_goals subst hpair
  all_goals exact ⟨(from_entry_bounds _ (hnext _).1 (hnext _).2 _).1,
    (from_entry_bounds _ (hnext _).1 (hnext _).2 _).2, (hnext _).1, (hnext _).2⟩

theorem pathIter_ok (tiles : TileGrid) :
    ∀ (n : Nat) (s s' : MarkerPosition × Coord), StateOK s →
      pathIter tiles n s = some s' → StateOK s' := by
  intro n
  induction n with
  | zero =>
    intro s s' hs h
    simp only [pathIter, Option.some.injEq] at h
    exact h ▸ hs
  | succ n ih =>
    intro s s' hs h
    simp only [pathIter] at h
    cases hst : findPathStep tiles s with
    | inl v => rw [hst] at h; exact Option.noConfusion h
    | inr s2 =>
      rw [hst] at h
      exact ih s2 s' (findPathStep_ok tiles s s2 hs hst) h

theorem encodeState_inj {s t : MarkerPosition × Coord}
    (h : encodeState s = encodeState t) : s = t := by
  obtain ⟨⟨cs⟩, ls⟩ := s
  obtain ⟨⟨ct⟩, lt'⟩ := t
  simp only [encodeState, Prod.mk.injEq] at h
  simp [MarkerPosition.mk.injEq, Prod.ext_iff, h.1, h.2]

theorem stateFinset_card : stateFinset.card = 12996 := by
  simp [stateFinset, Finset.card_product]

set_option maxRecDepth 8192 in
theorem encodeState_mem {s : MarkerPosition × Coord} (hs : StateOK s) :
    encodeState s ∈ stateFinset := by
  obtain ⟨h1, h2, h3, h4⟩ := hs
  simp [stateFinset, encodeState, Finset.mem_product, h1, h2, h3, h4]

theorem pathIter_cycle_forever (tiles : TileGrid) (t : MarkerPosition × Coord)
    (p : Nat) (hp : 0 < p) (hcyc : pathIter tiles p t = some t) :
    ∀ m, (pathIter tiles m t).isSome = true := by
  intro m
  induction m using Nat.strong_induction_on with
  | _ m ih =>
    by_cases hmp : m ≤ p
    · exact pathIter_isSome_of_le tiles hmp (by simp [hcyc])
    · have hm : m = p + (m - p) := by omega
      rw [hm, pathIter_add, hcyc]
      simpa using ih (m - p) (by omega)

set_option maxRecDepth 8192 in
/-- There are only 12996 bounded loop states, so a run that survives 12997
iterations has repeated a state and, the step function being deterministic,
never breaks. -/
theorem loop_isSome_of_terminates (tiles : TileGrid) (s0 : MarkerPosition × Coord)
    (hok : StateOK s0) (hterm : ∃ f, (findPathLoop tiles f s0).isSome = true) :
    (findPathLoop tiles 12997 s0).isSome = true := by
  by_contra hnone
  have hnone' : findPathLoop tiles 12997 s0 = none :=
    Option.not_isSome_iff_eq_none.mp (by simpa using hnone)
  have hiter : (pathIter tiles 12997 s0).isSome = true :=
    (findPathLoop_none_iff tiles 12997 s0).mp hnone'
  have hall : ∀ n, n ≤ 12997 → (pathIter tiles n s0).isSome = true :=
    fun n hn => pathIter_isSome_of_le tiles hn hiter
  have hmaps : ∀ i ∈ Finset.range 12997,
      encodeState ((pathIter tiles i s0).getD s0) ∈ stateFinset := by
    intro i hi
    have hi' := Finset.mem_range.mp hi
    obtain ⟨si, hsi⟩ := Option.isSome_iff_exists.mp (hall i (by omega))
    rw [hsi]
    exact encodeState_mem (pathIter_ok tiles i s0 si hok hsi)
  have hcard : stateFinset.card < (Finset.range 12997).card := by
    rw [stateFinset_card, Finset.card_range]
    omega
  obtain ⟨i, hi, j, hj, hne, heq⟩ :=
    Finset.exists_ne_map_eq_of_card_lt_of_maps_to hcard hmaps
  have hi' := Finset.mem_range.mp hi
  have hj' := Finset.mem_range.mp hj
  have key : ∀ a b, a < b → b < 12997 →
      encodeState ((pathIter tiles a s0).getD s0)
        = encodeState ((pathIter tiles b s0).getD s0) → False := by
    intro a b hab hb hab_eq
    obtain ⟨sa, hsa⟩ := Option.isSome_iff_exists.mp (hall a (by omega))
    obtain ⟨sb, hsb⟩ := Option.isSome_iff_exists.mp (hall b (by omega))
    rw [hsa, hsb] at hab_eq
    have hsab : sa = sb := encodeState_inj (by simpa using hab_eq)
    subst hsab
    have hcyc : pathIter tiles (b - a) sa = some sa := by
      have hb2 : b = a + (b - a) := by omega
      have hpi := hsb
      rw [hb2, pathIter_add, hsa] at hpi
      simpa using hpi
    have hforever : ∀ m, (pathIter tiles m sa).isSome = true :=
      pathIter_cycle_forever tiles sa (b - a) (by omega) hcyc
    have halln : ∀ n, (pathIter tiles n s0).isSome = true := by
      intro n
      by_cases hn : n ≤ a
      · exact pathIter_isSome_of_le tiles hn (by simp [hsa])
      · have hn2 : n = a + (n - a) := by omega
        rw [hn2, pathIter_add, hsa]
        simpa using hforever (n - a)
    obtain ⟨f, hf⟩ := hterm
    have hfn : findPathLoop tiles f s0 = none :=
      (findPathLoop_none_iff tiles f s0).mpr (halln f)
    rw [hfn] at hf
    simp at hf
  rcases Nat.lt_or_ge i j with hij | hij
  · exact key i j hij (by omega) heq
  · exact key j i (by omega) (by omega) heq.symm

/-! ## Claim theorems -/

/-- C4: `node_id` is a bijection from the 168 valid lattice positions onto
`[0,168)`; in particular it is injective. -/
theorem node_id_bijective :
    (∀ p : MarkerPosition, ValidNode p → p.node_id < 168) ∧
    (∀ p q : MarkerPosition, ValidNode p → ValidNode q →
      p.node_id = q.node_id → p = q) ∧
    (∀ n : Nat, n < 168 → ∃ p : MarkerPosition, ValidNode p ∧ p.node_id = n) := by
  refine ⟨?_, ?_, ?_⟩
  · intro p hp
    obtain ⟨⟨x, y⟩⟩ := p
    simp only [ValidNode, MarkerPosition.node_id] at hp ⊢
    split_ifs <;> omega
  · intro p q hp hq h
    obtain ⟨⟨x, y⟩⟩ := p
    obtain ⟨⟨x', y'⟩⟩ := q
    simp only [ValidNode, MarkerPosition.node_id] at hp hq h
    simp only [MarkerPosition.mk.injEq, Prod.mk.injEq]
    split_ifs at h <;> omega
  · intro n hn
    refine ⟨nodeIdInv n, ?_⟩
    simp only [ValidNode, nodeIdInv, MarkerPosition.node_id]
    split_ifs
    all_goals try dsimp only at *
    all_goals omega

/-- Witness for C4 at concrete inputs. -/
theorem node_id_bijective_witness :
    (MarkerPosition.mk (0, 1)).node_id < 168 ∧
    (∃ p : MarkerPosition, ValidNode p ∧ p.node_id = 5) :=
  ⟨node_id_bijective.1 ⟨(0, 1)⟩ (by decide), node_id_bijective.2.2 5 (by decide)⟩

/-- C5: converting a tile coordinate plus entry point to a lattice position and
asking for the entry point index back on the same tile round-trips. -/
theorem entry_point_round_trip :
    ∀ x < 6, ∀ y < 6, ∀ e < 8,
      (MarkerPosition.from_entry_point_index (x, y) e).entry_point_index_on (x, y)
        = some e := by decide

/-- C6 counterexample: for a tile with out-of-range connection entries (a
legal `[usize; 8]`, and the repository's own tests build such tiles),
`rotated(0)` is not the identity, because every output entry is reduced
mod 8. -/
theorem rotated_zero_counterexample : ¬ (junkTile.rotated 0 = junkTile) := by
  decide

/-- C6 (amended): for tiles whose connection entries are in range,
`rotated 0` and `rotated 4` are the identity, and composing rotations adds
the counts mod 4 (the composition law needs no range hypothesis). -/
theorem rotated_group_law (t : Tile) (h : ∀ i, t.connections i < 8) (a b : Nat) :
    t.rotated 0 = t ∧ t.rotated 4 = t ∧
      (t.rotated a).rotated b = t.rotated ((a + b) % 4) := by
  refine ⟨Tile.rotated_zero t h, ?_, Tile.rotated_rotated t a b⟩
  have h40 : t.rotated 4 = t.rotated 0 := rfl
  rw [h40]
  exact Tile.rotated_zero t h

/-- Witness for C6 at the first catalog tile with rotations 1 and 2. -/
theorem rotated_group_law_witness :
    tile0.rotated 0 = tile0 ∧ tile0.rotated 4 = tile0 ∧
      (tile0.rotated 1).rotated 2 = tile0.rotated ((1 + 2) % 4) :=
  rotated_group_law tile0 (by decide) 1 2

/-- C7: on a fixed-point-free involution tile, `paths()` yields exactly 4
pairs, each of the 8 entry points belongs to exactly one pair, each pair is
`(i, connections[i])` with the lower endpoint first, and the pairs are ordered
by their first (smaller) endpoint, i.e. by first occurrence in the scan. -/
theorem paths_of_involution (t : Tile)
    (h8 : ∀ i : Fin 8, t.connections i < 8)
    (hinv : ∀ i : Fin 8, t.conn (t.connections i) = i.val)
    (hnf : ∀ i : Fin 8, t.connections i ≠ i.val) :
    t.paths.length = 4 ∧
    (∀ p ∈ t.paths, p.2 = t.conn p.1 ∧ p.1 < p.2) ∧
    (∀ e, e < 8 → t.paths.countP (fun p => decide (p.1 = e) || decide (p.2 = e)) = 1) ∧
    t.paths.Pairwise (fun p q => p.1 < q.1) := by
  have hconn := Tile.conn_facts t h8 hinv hnf
  have hcount := countP_lt_conn t.conn hconn
  have hform : pathsAux t.conn (fun _ => false) (List.range 8)
      = pathsSpec t.conn (List.range 8) := by
    rw [List.range_eq_range']
    exact pathsAux_eq_filterMap t.conn hconn 8 0 rfl _ (fun j hj => by simp)
  have hlen : (pathsSpec t.conn (List.range 8)).length = 4 := by
    have h1 : (pathsSpec t.conn (List.range 8)).length
        = List.countP (fun a => decide (a < t.conn a)) (List.range 8) := by
      rw [show (pathsSpec t.conn (List.range 8)).length
          = List.countP (fun _ => true) (pathsSpec t.conn (List.range 8)) from
          (congrFun List.countP_true _).symm]
      rw [pathsSpec, List.countP_filterMap]
      apply List.countP_congr
      intro a _
      by_cases h : a < t.conn a <;> simp [h]
    rw [h1, hcount]
  have hpaths : t.paths = pathsSpec t.conn (List.range 8) := by
    rw [Tile.paths, hform]
    rw [show (4 : Nat) = (pathsSpec t.conn (List.range 8)).length from hlen.symm]
    exact List.take_left _ _
  refine ⟨by rw [hpaths, hlen], ?_, ?_, ?_⟩
  · intro p hp
    rw [hpaths] at hp
    obtain ⟨a, _, hfa⟩ := List.mem_filterMap.mp hp
    by_cases h : a < t.conn a
    · rw [if_pos h] at hfa
      cases hfa
      exact ⟨rfl, h⟩
    · rw [if_neg h] at hfa
      cases hfa
  · intro e he
    rw [hpaths, pathsSpec, List.countP_filterMap]
    by_cases hcase : e < t.conn e
    · refine (List.countP_congr ?_).trans (countP_eq_single 8 e (by omega))
      intro a ha
      have ha8 := List.mem_range.mp ha
      by_cases h : a < t.conn a
      · simp only [if_pos h, Option.map_some', Option.getD_some, Bool.or_eq_true,
          decide_eq_true_eq]
        constructor
        · rintro (rfl | hca)
          · rfl
          · have hc := (hconn a ha8).2.1
            rw [hca] at hc
            omega
        · intro h'; exact Or.inl h'
      · simp only [if_neg h, Option.map_none', Option.getD_none, Bool.false_eq_true,
          false_iff, decide_eq_true_eq]
        intro heq
        subst heq
        exact h hcase
    · have hce := hconn e he
      have hcelt : t.conn e < e := by omega
      refine (List.countP_congr ?_).trans (countP_eq_single 8 (t.conn e) hce.1)
      intro a ha
      have ha8 := List.mem_range.mp ha
      by_cases h : a < t.conn a
      · simp only [if_pos h, Option.map_some', Option.getD_some, Bool.or_eq_true,
          decide_eq_true_eq]
        constructor
        · rintro (rfl | hca)
          · omega
          · have hc := (hconn a ha8).2.1
            rw [hca] at hc
            rw [← hc]
        · intro heq
          subst heq
          exact Or.inr hce.2.1
      · simp only [if_neg h, Option.map_none', Option.getD_none, Bool.false_eq_true,
          false_iff, decide_eq_true_eq]
        intro heq
        subst heq
        rw [hce.2.1] at h
        exact h hcelt
  · rw [hpaths, pathsSpec]
    rw [List.pairwise_filterMap]
    apply List.Pairwise.imp ?_ (List.pairwise_lt_range 8)
    intro a a' hlt b hb b' hb'
    by_cases h : a < t.conn a
    · by_cases h' : a' < t.conn a'
      · rw [if_pos h, Option.mem_some_iff] at hb
        rw [if_pos h', Option.mem_some_iff] at hb'
        rw [← hb, ← hb']
        exact hlt
      · rw [if_neg h'] at hb'
        cases hb'
    · rw [if_neg h] at hb
      cases hb

/-- Witness for C7 at the first catalog tile. -/
theorem paths_of_involution_witness :
    tile0.paths.length = 4 ∧
    (∀ p ∈ tile0.paths, p.2 = tile0.conn p.1 ∧ p.1 < p.2) ∧
    (∀ e, e < 8 →
      tile0.paths.countP (fun p => decide (p.1 = e) || decide (p.2 = e)) = 1) ∧
    tile0.paths.Pairwise (fun p q => p.1 < q.1) :=
  paths_of_involution tile0 (by decide) (by decide) (by decide)

theorem loopGrid_cycle_stepA :
    findPathStep loopGrid (⟨(1, 3)⟩, (0, 0)) = Sum.inr (⟨(2, 3)⟩, (0, 1)) := by
  decide

theorem loopGrid_cycle_stepB :
    findPathStep loopGrid (⟨(2, 3)⟩, (0, 1)) = Sum.inr (⟨(1, 3)⟩, (0, 0)) := by
  decide

theorem loopGrid_never_returns : ∀ fuel,
    findPathLoop loopGrid fuel (⟨(1, 3)⟩, (0, 0)) = none ∧
    findPathLoop loopGrid fuel (⟨(2, 3)⟩, (0, 1)) = none := by
  intro fuel
  induction fuel with
  | zero => exact ⟨rfl, rfl⟩
  | succ fuel ih =>
    constructor
    · show findPathLoop loopGrid (fuel + 1) (⟨(1, 3)⟩, (0, 0)) = none
      simp only [findPathLoop, loopGrid_cycle_stepA]
      exact ih.2
    · simp only [findPathLoop, loopGrid_cycle_stepB]
      exact ih.1

/-- C2 counterexample: on the grid with two stacked copies of catalog tile
`"12-34-56-78"`, `find_path_endpoint((0,0), 0)` enters a two-state cycle and
the loop never breaks: no amount of fuel makes the model return. -/
theorem find_path_endpoint_nontermination :
    ¬ pathTerminates loopGrid (0, 0) 0 := by
  rintro ⟨fuel, hf⟩
  have h0 : MarkerPosition.from_entry_point_index (0, 0) 0 = ⟨(1, 3)⟩ := by decide
  rw [h0] at hf
  rw [(loopGrid_never_returns fuel).1] at hf
  simp at hf

/-- C2 (amended): the path-following loop of `find_path_endpoint` does not
terminate on every grid.  What holds instead: the loop has at most 12996
distinct states, so it terminates within 12997 iterations or not at all, and
once it returns, any larger fuel returns the same endpoint. -/
theorem find_path_endpoint_bounded_or_diverges (tiles : TileGrid) (location : Coord)
    (exit : Nat) (hx : location.1 < 6) (hy : location.2 < 6) :
    (pathTerminates tiles location exit ↔
      (findPathLoop tiles 12997
        (MarkerPosition.from_entry_point_index location exit, location)).isSome = true) ∧
    (∀ f1 f2 v, f1 ≤ f2 →
      findPathLoop tiles f1
          (MarkerPosition.from_entry_point_index location exit, location) = some v →
      findPathLoop tiles f2
          (MarkerPosition.from_entry_point_index location exit, location) = some v) := by
  constructor
  · constructor
    · intro hterm
      apply loop_isSome_of_terminates
      · exact ⟨(from_entry_bounds location hx hy exit).1,
          (from_entry_bounds location hx hy exit).2, hx, hy⟩
      · exact hterm
    · intro h
      exact ⟨12997, h⟩
  · intro f1 f2 v hle h
    exact findPathLoop_mono tiles f1 _ f2 v hle h

/-- Witness for C2 on the empty grid. -/
theorem find_path_endpoint_bounded_witness :
    (pathTerminates emptyGrid (0, 0) 0 ↔
      (findPathLoop emptyGrid 12997
        (MarkerPosition.from_entry_point_index (0, 0) 0, (0, 0))).isSome = true) ∧
    (∀ f1 f2 v, f1 ≤ f2 →
      findPathLoop emptyGrid f1
          (MarkerPosition.from_entry_point_index (0, 0) 0, (0, 0)) = some v →
      findPathLoop emptyGrid f2
          (MarkerPosition.from_entry_point_index (0, 0) 0, (0, 0)) = some v) :=
  find_path_endpoint_bounded_or_diverges emptyGrid (0, 0) 0 (by decide) (by decide)

theorem collisions_raw_eq_flatMap (b : Board) (tile : Tile) (position : Coord) :
    b.collisions_raw tile position = tile.paths.flatMap (collisionsOf b position) := by
  rw [Board.collisions_raw]
  suffices h : ∀ (l : List (Nat × Nat)) (init : List Nat),
      l.foldl (fun acc entry_idx =>
        match b.playerAt position entry_idx.1, b.playerAt position entry_idx.2 with
        | some pa, some pb => acc ++ [pa, pb]
        | _, _ => acc) init = init ++ l.flatMap (collisionsOf b position) by
    simpa using h tile.paths []
  intro l
  induction l with
  | nil => intro init; simp
  | cons cd rest ih =>
    intro init
    rw [List.foldl_cons, List.flatMap_cons, ih]
    rcases h1 : b.playerAt position cd.1 with _ | pa <;>
      rcases h2 : b.playerAt position cd.2 with _ | pb <;>
        simp [collisionsOf, h1, h2]

/-- C3: when exactly one of the tile's four paths joins two entry positions
holding the tokens of two distinct players `pa` and `pb` (and no other path
has tokens on both of its endpoints), `find_collisions` returns `pa` and `pb`
exactly once each and nothing else. -/
theorem find_collisions_of_unique_path (b : Board) (tile : Tile) (position : Coord)
    (i j pa pb : Nat) (l1 l2 : List (Nat × Nat))
    (hsplit : tile.paths = l1 ++ (i, j) :: l2)
    (hi : b.playerAt position i = some pa)
    (hj : b.playerAt position j = some pb)
    (hab : pa ≠ pb)
    (hothers : ∀ cd ∈ l1 ++ l2,
      b.playerAt position cd.1 = none ∨ b.playerAt position cd.2 = none) :
    (b.find_collisions tile position).count pa = 1 ∧
    (b.find_collisions tile position).count pb = 1 ∧
    (∀ k, k ≠ pa → k ≠ pb → (b.find_collisions tile position).count k = 0) := by
  have hraw : b.collisions_raw tile position = [pa, pb] := by
    rw [collisions_raw_eq_flatMap, hsplit]
    have hzero : ∀ cd ∈ l1 ++ l2, collisionsOf b position cd = [] := by
      intro cd hcd
      rcases hothers cd hcd with h | h <;> simp [collisionsOf, h]
    have hz1 : ∀ cd ∈ l1, collisionsOf b position cd = [] :=
      fun cd hcd => hzero cd (List.mem_append.mpr (Or.inl hcd))
    have hz2 : ∀ cd ∈ l2, collisionsOf b position cd = [] :=
      fun cd hcd => hzero cd (List.mem_append.mpr (Or.inr hcd))
    rw [List.flatMap_append, List.flatMap_cons]
    rw [List.flatMap_eq_nil_iff.mpr hz1, List.flatMap_eq_nil_iff.mpr hz2]
    simp [collisionsOf, hi, hj]
  have hsorted : b.find_collisions tile position
      = if pa ≤ pb then [pa, pb] else [pb, pa] := by
    rw [Board.find_collisions, hraw]
    by_cases hle : pa ≤ pb
    · rw [if_pos hle]
      simp only [List.insertionSort, List.orderedInsert]
      rw [if_pos hle]
      simp [rustDedup, hab]
    · rw [if_neg hle]
      simp only [List.insertionSort, List.orderedInsert]
      rw [if_neg hle]
      simp [rustDedup, Ne.symm hab]
  rw [hsorted]
  by_cases hle : pa ≤ pb
  · rw [if_pos hle]
    refine ⟨?_, ?_, ?_⟩
    · simp [List.count_cons, hab]
    · simp [List.count_cons, Ne.symm hab]
    · intro k hka hkb
      simp [List.count_cons, Ne.symm hka, Ne.symm hkb]
  · rw [if_neg hle]
    refine ⟨?_, ?_, ?_⟩
    · simp [List.count_cons, hab]
    · simp [List.count_cons, Ne.symm hab]
    · intro k hka hkb
      simp [List.count_cons, Ne.symm hka, Ne.symm hkb]

/-- Witness for C3: two players on the two south entries of tile `(3,0)`,
joined by the `"56"` path of catalog tile `"12-34-56-78"`. -/
theorem find_collisions_of_unique_path_witness :
    (twoBorderBoard.find_collisions tile0 (3, 0)).count 0 = 1 ∧
    (twoBorderBoard.find_collisions tile0 (3, 0)).count 1 = 1 ∧
    (∀ k, k ≠ 0 → k ≠ 1 → (twoBorderBoard.find_collisions tile0 (3, 0)).count k = 0) :=
  find_collisions_of_unique_path twoBorderBoard tile0 (3, 0) 4 5 0 1
    [(0, 1), (2, 3)] [(6, 7)] (by decide) (by decide) (by decide) (by decide)
    (by decide)

/-- Witness for C5 at tile `(3,4)`, entry point 2. -/
theorem entry_point_round_trip_witness :
    (MarkerPosition.from_entry_point_index (3, 4) 2).entry_point_index_on (3, 4)
      = some 2 :=
  entry_point_round_trip 3 (by decide) 4 (by decide) 2 (by decide)

/-- C9 counterexample: on a board whose only marker is an active marker that
occupies the border position of index 0 but has already moved
(`has_moved = true`, `previous_tile` set), the position is claimed by an
active marker, yet `place_marker 0` returns `true` and appends a second
marker at the same position. -/
theorem place_marker_counterexample :
    (movedMarkerBoard.markers.getD 0 none).map (fun m => m.position)
        = some (MarkerPosition.from_index 0) ∧
    (movedMarkerBoard.place_marker 0).2 = true ∧
    (movedMarkerBoard.place_marker 0).1.markers ≠ movedMarkerBoard.markers := by
  decide

/-- C9 (amended): `place_marker` returns `false` with the board unchanged iff
the marker list already contains an identical never-moved marker at that
border position (`Vec::contains` compares the whole `Marker`, not just the
position); otherwise it returns `true` and its only effect is appending the
new marker. -/
theorem place_marker_spec (b : Board) (idx : Nat) (_hidx : idx < 48) :
    (b.markers.contains (some ⟨MarkerPosition.from_index idx, none, false⟩) = true →
      b.place_marker idx = (b, false)) ∧
    (b.markers.contains (some ⟨MarkerPosition.from_index idx, none, false⟩) = false →
      (b.place_marker idx).2 = true ∧
      (b.place_marker idx).1.markers
        = b.markers ++ [some ⟨MarkerPosition.from_index idx, none, false⟩] ∧
      (b.place_marker idx).1.tiles = b.tiles ∧
      (b.place_marker idx).1.graph = b.graph) := by
  constructor
  · intro h
    have hmem : some (Marker.mk (MarkerPosition.from_index idx) none false) ∈ b.markers := by
      simpa using h
    simp [Board.place_marker, hmem]
  · intro h
    have hmem : ¬ some (Marker.mk (MarkerPosition.from_index idx) none false) ∈ b.markers := by
      simpa using h
    simp [Board.place_marker, hmem]

/-- Witness for C9 on the empty marker list. -/
theorem place_marker_spec_witness :
    ((Board.mk [] emptyGrid graph0).place_marker 0).2 = true ∧
    ((Board.mk [] emptyGrid graph0).place_marker 0).1.markers
      = [] ++ [some ⟨MarkerPosition.from_index 0, none, false⟩] ∧
    ((Board.mk [] emptyGrid graph0).place_marker 0).1.tiles = emptyGrid ∧
    ((Board.mk [] emptyGrid graph0).place_marker 0).1.graph = graph0 :=
  (place_marker_spec (Board.mk [] emptyGrid graph0) 0 (by decide)).2 (by decide)

theorem getD_set_ne {l : List (Option Marker)} {i j : Nat} (h : i ≠ j) (x : Option Marker) :
    (l.set i x).getD j none = l.getD j none := by
  rw [List.getD_eq_getElem?_getD, List.getD_eq_getElem?_getD, List.getElem?_set_ne h]

/-- The iteration of `move_markers` only writes marker slots at or above the
current player index, so already-eliminated entries and the entries of
players reported eliminated keep their pre-call value. -/
theorem moveMarkersAux_spec (b : Board) (fuel : Nat) :
    ∀ (clone : List (Option Marker)) (k : Nat) (cur : List (Option Marker))
      (elim0 : List Nat) (res : List (Option Marker) × List Nat),
      b.moveMarkersAux fuel clone k (cur, elim0) = some res →
      (∀ q, q < k → res.1.getD q none = cur.getD q none) ∧
      (∀ p ∈ res.2, p ∈ elim0 ∨ (k ≤ p ∧ res.1.getD p none = cur.getD p none)) := by
  intro clone
  induction clone with
  | nil =>
    intro k cur elim0 res h
    simp only [Board.moveMarkersAux, Option.some.injEq] at h
    subst h
    exact ⟨fun q _ => rfl, fun p hp => Or.inl hp⟩
  | cons entry rest ih =>
    intro k cur elim0 res h
    simp only [Board.moveMarkersAux] at h
    cases hstep : b.moveMarkersStep fuel (cur, elim0) k entry with
    | none => rw [hstep] at h; cases h
    | some state' =>
      rw [hstep] at h
      -- analyse the step
      have hcases :
          (state' = (cur, elim0)) ∨
          (state' = (cur, elim0 ++ [k])) ∨
          (∃ m : Option Marker, state' = (cur.set k m, elim0)) := by
        simp only [Board.moveMarkersStep] at hstep
        split at hstep
        · exact Or.inl (Option.some.inj hstep).symm
        · split at hstep
          · exact Option.noConfusion hstep
          · split at hstep
            · exact Or.inl (Option.some.inj hstep).symm
            · split at hstep
              · exact Or.inr (Or.inl (Option.some.inj hstep).symm)
              · repeat' split at hstep
                all_goals try exact Option.noConfusion hstep
                all_goals exact Or.inr (Or.inr ⟨_, (Option.some.inj hstep).symm⟩)
      rcases hcases with hc | hc | ⟨m, hc⟩
      · subst hc
        obtain ⟨ha, hb⟩ := ih (k + 1) cur elim0 res h
        refine ⟨fun q hq => ha q (by omega), fun p hp => ?_⟩
        rcases hb p hp with h1 | ⟨h1, h2⟩
        · exact Or.inl h1
        · exact Or.inr ⟨by omega, h2⟩
      · subst hc
        obtain ⟨ha, hb⟩ := ih (k + 1) cur (elim0 ++ [k]) res h
        refine ⟨fun q hq => ha q (by omega), fun p hp => ?_⟩
        rcases hb p hp with h1 | ⟨h1, h2⟩
        · rcases List.mem_append.mp h1 with h1 | h1
          · exact Or.inl h1
          · have : p = k := by simpa using h1
            subst this
            exact Or.inr ⟨le_refl _, ha p (by omega)⟩
        · exact Or.inr ⟨by omega, h2⟩
      · subst hc
        obtain ⟨ha, hb⟩ := ih (k + 1) (cur.set k m) elim0 res h
        refine ⟨fun q hq => ?_, fun p hp => ?_⟩
        · rw [ha q (by omega), getD_set_ne (by omega)]
        · rcases hb p hp with h1 | ⟨h1, h2⟩
          · exact Or.inl h1
          · refine Or.inr ⟨by omega, ?_⟩
            rw [h2, getD_set_ne (by omega)]

/-- C10: whenever `move_markers` returns (no panic, enough fuel), it mutates
only the `markers` field — the tile grid and the graph are unchanged — and
the marker of every player it reports as eliminated is itself left
untouched. -/
theorem move_markers_frame (b : Board) (fuel : Nat) (b' : Board) (elim : List Nat)
    (h : b.move_markers fuel = some (b', elim)) :
    b'.tiles = b.tiles ∧ b'.graph = b.graph ∧
    (∀ p ∈ elim, b'.markers.getD p none = b.markers.getD p none) := by
  simp only [Board.move_markers] at h
  cases haux : b.moveMarkersAux fuel b.markers 0 (b.markers, []) with
  | none => rw [haux] at h; cases h
  | some res =>
    rw [haux] at h
    obtain ⟨markers', eliminated⟩ := res
    simp only [Option.some.injEq, Prod.mk.injEq] at h
    obtain ⟨hb', helim⟩ := h
    subst hb'
    subst helim
    obtain ⟨_, hspec⟩ := moveMarkersAux_spec b fuel b.markers 0 b.markers [] _ haux
    refine ⟨rfl, rfl, fun p hp => ?_⟩
    rcases hspec p hp with h1 | ⟨_, h2⟩
    · cases h1
    · exact h2

/-- Witness for C10: a single marker carried off the board edge is reported
eliminated with its marker entry unchanged. -/
theorem move_markers_frame_witness :
    eliminationBoard.tiles = eliminationBoard.tiles ∧
    eliminationBoard.graph = eliminationBoard.graph ∧
    (∀ p ∈ [0], eliminationBoard.markers.getD p none
      = eliminationBoard.markers.getD p none) :=
  move_markers_frame eliminationBoard 9 eliminationBoard [0] (by decide)

/-- C1 counterexample: player 0 is about to enter tile `(3,0)`; the candidate
tile `"15-26-37-48"` routes player 0's entry to the interior position
`(10,3)` — not a board edge — where player 1's (distinct) token sits.
`move_is_suicide` returns `true`, although the traced endpoint is not a board
edge and the collision is with another player's token, not the active
player's own token. -/
theorem move_is_suicide_counterexample :
    collisionBoard.move_is_suicide tile15 0 9 = some true ∧
    collisionBoard.suicideLoop tile15 (3, 0) 9 9 ⟨(11, 0)⟩ = some ⟨(10, 3)⟩ ∧
    (MarkerPosition.mk (10, 3)).is_edge = false ∧
    collisionBoard.find_collisions tile15 (3, 0) = [0, 1] ∧
    (collisionBoard.markers.getD 0 none).map (fun m => m.position) = some ⟨(11, 0)⟩ ∧
    (collisionBoard.markers.getD 1 none).map (fun m => m.position) = some ⟨(10, 3)⟩ := by
  decide

/-- C1 (amended): whenever `move_is_suicide` returns, its result is `true`
iff the traced endpoint is a board-edge position or the active player appears
in `find_collisions(tile, next_tile_of_player(player))` — the latter includes
collisions with other players' tokens, not only a self-collision. -/
theorem move_is_suicide_iff (b : Board) (tile : Tile) (active_player fuel : Nat)
    (r : Bool) (h : b.move_is_suicide tile active_player fuel = some r) :
    ∃ marker tile_pos endPos,
      b.markers.getD active_player none = some marker ∧
      b.next_tile_of_player active_player = some tile_pos ∧
      b.suicideLoop tile tile_pos fuel fuel marker.position = some endPos ∧
      (r = true ↔
        (endPos.is_edge = true ∨
          active_player ∈ b.find_collisions tile tile_pos)) := by
  simp only [Board.move_is_suicide] at h
  split at h
  · exact Option.noConfusion h
  · split at h
    · exact Option.noConfusion h
    · split at h
      · exact Option.noConfusion h
      · rename_i x2 marker hm x1 tile_pos htp x0 endPos hloop
        refine ⟨marker, tile_pos, endPos, hm, htp, hloop, ?_⟩
        have hr := (Option.some.inj h).symm
        subst hr
        constructor
        · intro hor
          rcases Bool.or_eq_true_iff.mp hor with h1 | h1
          · exact Or.inl h1
          · exact Or.inr (by simpa using h1)
        · intro hor
          rcases hor with h1 | h1
          · simp [h1]
          · simp only [Bool.or_eq_true]
            exact Or.inr (by simpa using h1)

/-- Witness for C1 at the two-player collision board. -/
theorem move_is_suicide_iff_witness :
    ∃ marker tile_pos endPos,
      collisionBoard.markers.getD 0 none = some marker ∧
      collisionBoard.next_tile_of_player 0 = some tile_pos ∧
      collisionBoard.suicideLoop tile15 tile_pos 9 9 marker.position = some endPos ∧
      (true = true ↔
        (endPos.is_edge = true ∨
          0 ∈ collisionBoard.find_collisions tile15 tile_pos)) :=
  move_is_suicide_iff collisionBoard tile15 0 9 true (by decide)

end PyTsuro
